import Mathlib

/-!
Verification of the related-content scraper (`scrape.mjs`).

The repository file contains two successive revisions of one scraping
script, separated by a document marker; the second (final) revision is the
current program and is what we embed here.  JavaScript strings are embedded
as Lean `String`s (character sequences), JS string length as `String.length`,
and JS `String.prototype.startsWith` / `includes` as character-list prefix /
infix tests.  The DOM, the page renderer, the network and the clock are
external collaborators; they enter the model as explicit data (a snapshot of
heading texts and candidate anchors, and a fetch-outcome environment).
-/

namespace Scrape

/-- The character class of the JavaScript regular-expression `\s`
(whitespace), used by `String(s).replace(/\s+/g, " ").trim()` in the
source's `cleanText` / `norm` helpers. -/
def isJsWs (c : Char) : Bool :=
  c.toNat = 9 || c.toNat = 10 || c.toNat = 11 || c.toNat = 12 || c.toNat = 13 ||
  c.toNat = 32 || c.toNat = 0xa0 || c.toNat = 0x1680 ||
  (0x2000 ≤ c.toNat && c.toNat ≤ 0x200a) ||
  c.toNat = 0x2028 || c.toNat = 0x2029 || c.toNat = 0x202f ||
  c.toNat = 0x205f || c.toNat = 0x3000 || c.toNat = 0xfeff

/-- One left-to-right pass implementing `replace(/\s+/g, " ")`: every
maximal run of whitespace characters is replaced by a single space.  The
flag records whether we are currently inside a whitespace run. -/
def collapseWsGo : Bool → List Char → List Char
  | _, [] => []
  | inRun, c :: rest =>
    if isJsWs c then
      if inRun then collapseWsGo true rest else ' ' :: collapseWsGo true rest
    else c :: collapseWsGo false rest

/-- `String.prototype.trim()`: drop whitespace from both ends. -/
def jsTrimList (l : List Char) : List Char :=
  ((l.dropWhile isJsWs).reverse.dropWhile isJsWs).reverse

/-- `cleanText` of the source (also the in-page `norm`):
`String(s || "").replace(/\s+/g, " ").trim()`. -/
def cleanText (s : String) : String :=
  String.mk (jsTrimList (collapseWsGo false s.data))

/-- JS `String.prototype.startsWith`, embedded as a character-list prefix
test. -/
def strStartsWith (s pre : String) : Bool :=
  pre.data.isPrefixOf s.data

/-- JS `String.prototype.includes`, embedded as a character-list infix
test. -/
def hasSubstrList (needle : List Char) : List Char → Bool
  | [] => needle.isEmpty
  | c :: rest => needle.isPrefixOf (c :: rest) || hasSubstrList needle rest

def strIncludes (hay needle : String) : Bool :=
  hasSubstrList needle.data hay.data

/-- JS `String.prototype.toLowerCase`, embedded as a per-character map. -/
def strToLower (s : String) : String :=
  String.mk (s.data.map Char.toLower)

/-- `absUrl` of the final revision:
```js
function absUrl(href) {
  if (!href) return "";
  if (href.startsWith("http://") || href.startsWith("https://")) return href;
  if (href.startsWith("//")) return `https:${href}`;
  if (href.startsWith("/")) return `https://intermountainhealthcare.org${href}`;
  return href;
}
``` -/
def absUrl (href : String) : String :=
  if href = "" then ""
  else if strStartsWith href "http://" || strStartsWith href "https://" then href
  else if strStartsWith href "//" then "https:" ++ href
  else if strStartsWith href "/" then "https://intermountainhealthcare.org" ++ href
  else href

/-- The category band of the in-page text classifier:
`t.length >= 3 && t.length <= 45`. -/
def categoryBand (t : String) : Bool :=
  decide (3 ≤ t.length) && decide (t.length ≤ 45)

/-- The description band of the in-page text classifier: `t.length >= 60`. -/
def descriptionBand (t : String) : Bool :=
  decide (60 ≤ t.length)

/-- `textBits.find(t => t.length >= 3 && t.length <= 45) || ""`. -/
def selectCategory (bits : List String) : String :=
  (bits.find? categoryBand).getD ""

/-- `textBits.find(t => t.length >= 60) || ""`. -/
def selectDescription (bits : List String) : String :=
  (bits.find? descriptionBand).getD ""

/- ------------------------------------------------------------------ -/
/- Card extraction (the `page.evaluate` pass of the final revision)    -/
/- ------------------------------------------------------------------ -/

/-- One candidate title anchor produced by
`root.querySelectorAll("a[href]")` paired with its heading
(`a.querySelector("h2,h3") || a.closest("h2,h3")`); the `.filter(Boolean)`
step has already removed anchors without a heading, so a candidate always
carries one.  `href` is `a.getAttribute("href") || ""`, `titleText` is the
heading's raw `textContent`, and `cardTexts` are the raw `textContent`s of
`card.querySelectorAll("p, span, div")` in document order. -/
structure Candidate where
  href : String
  titleText : String
  cardTexts : List String
deriving DecidableEq

/-- A record pushed by the in-page loop of the final revision:
`{ title, url: href, category, description }`. -/
structure RawRecord where
  title : String
  url : String
  category : String
  description : String
deriving DecidableEq

/-- A fully normalized item of the persisted payload. -/
structure CardRecord where
  title : String
  url : String
  category : String
  description : String
  imageUrl : String
deriving DecidableEq

def MAX_ITEMS : Nat := 8

/-- The dedup loop: `if (!href || seen.has(href)) continue; seen.add(href);
deduped.push(c)`. -/
def dedupGo : List String → List Candidate → List Candidate
  | _, [] => []
  | seen, c :: rest =>
    if c.href = "" ∨ c.href ∈ seen then dedupGo seen rest
    else c :: dedupGo (c.href :: seen) rest

def dedupByHref (cs : List Candidate) : List Candidate :=
  dedupGo [] cs

/-- The card-scoped text snippets:
`Array.from(card.querySelectorAll("p, span, div")).map(el =>
norm(el.textContent)).filter(Boolean).filter(t => t !== title)`. -/
def textBitsOf (title : String) (texts : List String) : List String :=
  ((texts.map cleanText).filter (fun t => decide (t ≠ ""))).filter
    (fun t => decide (t ≠ title))

/-- The record the in-page loop pushes for one surviving candidate. -/
def mkRaw (c : Candidate) : RawRecord :=
  let title := cleanText c.titleText
  let bits := textBitsOf title c.cardTexts
  { title := title, url := c.href,
    category := selectCategory bits, description := selectDescription bits }

/-- The per-candidate guard `if (!title || !href) continue`. -/
def qualifies (c : Candidate) : Bool :=
  decide (cleanText c.titleText ≠ "") && decide (c.href ≠ "")

/-- The result-building loop over the deduplicated candidates, with the
`if (results.length >= MAX) break` cap; `count` is `results.length`. -/
def extractGo (MAX : Nat) : Nat → List Candidate → List RawRecord
  | _, [] => []
  | count, c :: rest =>
    if MAX ≤ count then []
    else if qualifies c then mkRaw c :: extractGo MAX (count + 1) rest
    else extractGo MAX count rest

/-- The heading predicate of the Section Locator:
`norm(el.textContent).toLowerCase().includes("you might be interested in")`. -/
def headingMatches (t : String) : Bool :=
  strIncludes (strToLower (cleanText t)) "you might be interested in"

/-- `Array.from(document.querySelectorAll("h1,h2,h3")).find(...)` over the
raw heading texts of the snapshot. -/
def findHeading (hs : List String) : Option String :=
  hs.find? headingMatches

/-- A rendered DOM snapshot, as far as the extraction pass observes it:
the raw texts of all `h1,h2,h3` elements in document order, and the
candidate title anchors found under the located container (the ancestor
climb that picks the container only determines which anchors are in this
list, not how they are processed). -/
structure Snapshot where
  headings : List String
  candidates : List Candidate
deriving DecidableEq

/-- The whole `page.evaluate` extraction pass: `[]` when the target heading
is absent, otherwise the capped loop over the deduplicated candidates. -/
def baseItemsOf (snap : Snapshot) : List RawRecord :=
  match findHeading snap.headings with
  | none => []
  | some _ => extractGo MAX_ITEMS 0 (dedupByHref snap.candidates)

/-- The per-record normalization of the `cleaned` mapping. -/
def cleanRecord (it : RawRecord) : CardRecord :=
  { title := cleanText it.title, url := absUrl it.url,
    category := cleanText it.category, description := cleanText it.description,
    imageUrl := "" }

/-- `baseItems.slice(0, MAX_ITEMS).map(...)` producing normalized records
with `imageUrl` still empty. -/
def cleanedOf (base : List RawRecord) : List CardRecord :=
  (base.take MAX_ITEMS).map cleanRecord

/- ------------------------------------------------------------------ -/
/- The secondary image fetch (`fetchOgImage`)                          -/
/- ------------------------------------------------------------------ -/

/-- What the awaited `fetch` did: completed with a status flag (`res.ok`)
and a body text, failed with a network error, or was aborted by the
timeout controller.  An abort surfaces as a rejection, so the code cannot
distinguish it from any other fetch failure. -/
inductive FetchOutcome where
  | success : Bool → String → FetchOutcome
  | netError : FetchOutcome
  | aborted : FetchOutcome
deriving DecidableEq

/-- One item of the concrete regular expressions used by `fetchOgImage`:
a case-insensitive literal, the class `["']`, greedy `[^>]+` / `[^>]*`,
or the capturing group `([^"']+)`. -/
inductive PatItem where
  | lit : Char → PatItem
  | quoteCh : PatItem
  | plusNotGt : PatItem
  | starNotGt : PatItem
  | capNotQuote : PatItem
deriving DecidableEq

/-- Case-insensitive character comparison, for the regex `i` flag. -/
def lowerEq (a b : Char) : Bool := a.toLower == b.toLower

def notGt (c : Char) : Bool := c != '>'

def notQuote (c : Char) : Bool := c != '"' && c != '\''

/-- The splits a greedy quantifier over the class `p` tries, longest
first: `(s.take k, s.drop k)` for `k` from the length of the maximal
`p`-run down to `0`. -/
def greedySplits (p : Char → Bool) (s : List Char) : List (List Char × List Char) :=
  ((List.range ((s.takeWhile p).length + 1)).reverse).map
    (fun k => (s.take k, s.drop k))

/-- First successful alternative, in order — the backtracking order of the
regex engine. -/
def firstSome : List (Option String) → Option String
  | [] => none
  | o :: rest => match o with
    | some v => some v
    | none => firstSome rest

/-- Matches a pattern at the start of the text (the remainder of the text
is unconstrained, as for an unanchored regex).  Returns the text of the
single capturing group on success.  Greedy quantifiers try the longest
split first and backtrack, exactly as the JS engine does for these
patterns. -/
def matchHere : List PatItem → List Char → Option String
  | [], _ => some ""
  | PatItem.lit c :: ps, s =>
    match s with
    | [] => none
    | x :: rest => if lowerEq x c then matchHere ps rest else none
  | PatItem.quoteCh :: ps, s =>
    match s with
    | [] => none
    | x :: rest => if x == '"' || x == '\'' then matchHere ps rest else none
  | PatItem.plusNotGt :: ps, s =>
    firstSome (((greedySplits notGt s).filter (fun pr => !pr.1.isEmpty)).map
      (fun pr => matchHere ps pr.2))
  | PatItem.starNotGt :: ps, s =>
    firstSome ((greedySplits notGt s).map (fun pr => matchHere ps pr.2))
  | PatItem.capNotQuote :: ps, s =>
    firstSome (((greedySplits notQuote s).filter (fun pr => !pr.1.isEmpty)).map
      (fun pr => (matchHere ps pr.2).map (fun _ => String.mk pr.1)))

/-- Unanchored search: try `matchHere` at every start position, leftmost
first — `String.prototype.match` for these patterns. -/
def searchPat (pat : List PatItem) : List Char → Option String
  | [] => matchHere pat []
  | s@(_ :: rest) =>
    match matchHere pat s with
    | some v => some v
    | none => searchPat pat rest

def litsOf (s : String) : List PatItem := s.data.map PatItem.lit

/-- `/<meta[^>]+property=["']og:image["'][^>]+content=["']([^"']+)["'][^>]*>/i` -/
def ogPat1 : List PatItem :=
  litsOf "<meta" ++ [PatItem.plusNotGt] ++ litsOf "property=" ++ [PatItem.quoteCh] ++
  litsOf "og:image" ++ [PatItem.quoteCh, PatItem.plusNotGt] ++ litsOf "content=" ++
  [PatItem.quoteCh, PatItem.capNotQuote, PatItem.quoteCh, PatItem.starNotGt,
   PatItem.lit '>']

/-- `/<meta[^>]+content=["']([^"']+)["'][^>]+property=["']og:image["'][^>]*>/i` -/
def ogPat2 : List PatItem :=
  litsOf "<meta" ++ [PatItem.plusNotGt] ++ litsOf "content=" ++
  [PatItem.quoteCh, PatItem.capNotQuote, PatItem.quoteCh, PatItem.plusNotGt] ++
  litsOf "property=" ++ [PatItem.quoteCh] ++ litsOf "og:image" ++
  [PatItem.quoteCh, PatItem.starNotGt, PatItem.lit '>']

/-- `/<meta[^>]+name=["']twitter:image["'][^>]+content=["']([^"']+)["'][^>]*>/i` -/
def twPat1 : List PatItem :=
  litsOf "<meta" ++ [PatItem.plusNotGt] ++ litsOf "name=" ++ [PatItem.quoteCh] ++
  litsOf "twitter:image" ++ [PatItem.quoteCh, PatItem.plusNotGt] ++ litsOf "content=" ++
  [PatItem.quoteCh, PatItem.capNotQuote, PatItem.quoteCh, PatItem.starNotGt,
   PatItem.lit '>']

/-- `/<meta[^>]+content=["']([^"']+)["'][^>]+name=["']twitter:image["'][^>]*>/i` -/
def twPat2 : List PatItem :=
  litsOf "<meta" ++ [PatItem.plusNotGt] ++ litsOf "content=" ++
  [PatItem.quoteCh, PatItem.capNotQuote, PatItem.quoteCh, PatItem.plusNotGt] ++
  litsOf "name=" ++ [PatItem.quoteCh] ++ litsOf "twitter:image" ++
  [PatItem.quoteCh, PatItem.starNotGt, PatItem.lit '>']

/-- `html.match(p1) || html.match(p2)` for the `og:image` patterns.  The
captured group is `[^"']+`, hence never empty, so `m && m[1]` succeeds
exactly when a match exists. -/
def ogImageMatch (html : String) : Option String :=
  match searchPat ogPat1 html.data with
  | some v => some v
  | none => searchPat ogPat2 html.data

def twitterImageMatch (html : String) : Option String :=
  match searchPat twPat1 html.data with
  | some v => some v
  | none => searchPat twPat2 html.data

/-- `fetchOgImage(articleUrl, timeoutMs)`.  The network is an external
collaborator, so the awaited outcome is a parameter; `timeoutMs` only
determines when the abort controller fires, which the code observes as the
`aborted` outcome.  Every failure path lands in the `catch` and yields
`""`; nothing propagates to the caller. -/
def fetchOgImage (articleUrl : String) (_timeoutMs : Nat)
    (outcome : FetchOutcome) : String :=
  let url := absUrl articleUrl
  if url = "" then ""
  else
    match outcome with
    | FetchOutcome.netError => ""
    | FetchOutcome.aborted => ""
    | FetchOutcome.success ok body =>
      if !ok then ""
      else
        match ogImageMatch body with
        | some m1 => absUrl m1
        | none =>
          match twitterImageMatch body with
          | some m1 => absUrl m1
          | none => ""

/- ------------------------------------------------------------------ -/
/- Enrichment and the full pipeline                                    -/
/- ------------------------------------------------------------------ -/

/-- The mapper of
`mapWithConcurrency(cleaned, 3, async (item) => { const img = await
fetchOgImage(item.url); return { ...item, imageUrl: img || "" }; })`.
`env` assigns each requested URL its fetch outcome. -/
def enrichMapper (env : String → FetchOutcome) (item : CardRecord) : CardRecord :=
  let img := fetchOgImage item.url 20000 (env item.url)
  { item with imageUrl := if img = "" then "" else img }

/-- The enrichment stage as a sequential denotation of
`mapWithConcurrency(cleaned, 3, ...)`; `limiter_results_eq_map` below
proves that every completed run of the concurrent limiter computes exactly
this list. -/
def withImagesOf (env : String → FetchOutcome) (cleaned : List CardRecord) :
    List CardRecord :=
  cleaned.map (enrichMapper env)

/-- `payload.items` for a snapshot and a fetch environment. -/
def pipelineItems (env : String → FetchOutcome) (snap : Snapshot) :
    List CardRecord :=
  withImagesOf env (cleanedOf (baseItemsOf snap))

/- ------------------------------------------------------------------ -/
/- The concurrency limiter (`mapWithConcurrency`), operationally        -/
/- ------------------------------------------------------------------ -/

/-- The control point of one worker coroutine of `mapWithConcurrency`:
about to execute `const idx = i++` (idle), suspended on
`await mapper(items[idx], idx)` (working), or returned (done). -/
inductive WStatus where
  | idle : WStatus
  | working : Nat → WStatus
  | done : WStatus
deriving DecidableEq

/-- The shared state of a `mapWithConcurrency(items, limit, mapper)` call:
the shared cursor `i`, the `results` array (`none` = unassigned slot), a
per-slot write counter (instrumentation counting assignments to
`results[idx]`), and the status of each worker. -/
structure LState (β : Type) where
  next : Nat
  results : List (Option β)
  writes : List Nat
  workers : List WStatus
deriving DecidableEq

/-- The value the mapper produces for slot `i`. -/
def expectedAt {α β : Type} (items : List α) (f : α → Nat → β) (i : Nat) :
    Option β :=
  (items[i]?).map (fun a => f a i)

/-- One scheduler step: resume worker `w`.  An idle worker executes
`const idx = i++; if (idx >= items.length) return;` and then suspends on
the mapper; a suspended worker executes `results[idx] = ...` and loops
back to idle.  Resuming a finished or nonexistent worker changes
nothing. -/
def stepL {α β : Type} (items : List α) (f : α → Nat → β) (s : LState β)
    (w : Nat) : LState β :=
  match s.workers[w]? with
  | some WStatus.idle =>
    if items.length ≤ s.next then
      { s with next := s.next + 1, workers := s.workers.set w WStatus.done }
    else
      { s with next := s.next + 1,
               workers := s.workers.set w (WStatus.working s.next) }
  | some (WStatus.working idx) =>
    { s with results := s.results.set idx (expectedAt items f idx),
             writes := s.writes.set idx (s.writes.getD idx 0 + 1),
             workers := s.workers.set w WStatus.idle }
  | _ => s

/-- The state right after
`Array.from({ length: Math.min(limit, items.length) }, () => worker())`:
all `min limit n` workers are idle, no slot assigned. -/
def initL (β : Type) (n limit : Nat) : LState β :=
  { next := 0, results := List.replicate n none,
    writes := List.replicate n 0,
    workers := List.replicate (min limit n) WStatus.idle }

/-- Run a finite schedule of worker resumptions. -/
def execL {α β : Type} (items : List α) (f : α → Nat → β) (ss : List Nat)
    (s : LState β) : LState β :=
  ss.foldl (stepL items f) s

/-- `await Promise.all(workers)` has resolved: every worker returned. -/
def allDone {β : Type} (s : LState β) : Prop :=
  ∀ st ∈ s.workers, st = WStatus.done

instance {β : Type} (s : LState β) : Decidable (allDone s) :=
  List.decidableBAll _ s.workers

/-- The inductive invariant of `mapWithConcurrency`: array lengths are
fixed; slots at or beyond the cursor are blank; a working worker owns an
in-range, still-blank slot below the cursor, and no two workers own the
same slot; every claimed in-range slot is either written with the mapper's
value (exactly once) or owned by a worker; and a worker only returns after
the cursor has moved past the end of the input. -/
structure LInv {α β : Type} (items : List α) (f : α → Nat → β) (limit : Nat)
    (s : LState β) : Prop where
  resLen : s.results.length = items.length
  wrLen : s.writes.length = items.length
  wkLen : s.workers.length = min limit items.length
  blank : ∀ i : Nat, s.next ≤ i → i < items.length →
    s.results[i]? = some none ∧ s.writes[i]? = some 0
  workOk : ∀ w i : Nat, s.workers[w]? = some (WStatus.working i) →
    i < items.length ∧ i < s.next ∧ s.results[i]? = some none ∧ s.writes[i]? = some 0
  uniq : ∀ w1 w2 i : Nat, s.workers[w1]? = some (WStatus.working i) →
    s.workers[w2]? = some (WStatus.working i) → w1 = w2
  filled : ∀ i : Nat, i < s.next → i < items.length →
    (s.results[i]? = some (expectedAt items f i) ∧ s.writes[i]? = some 1)
    ∨ (∃ w : Nat, s.workers[w]? = some (WStatus.working i))
  doneNext : ∀ w : Nat, s.workers[w]? = some WStatus.done → items.length < s.next

/- ------------------------------------------------------------------ -/
/- Image Resolver (spec-modelled; see the doc comments)                -/
/- ------------------------------------------------------------------ -/

/-- Modelled from the spec: the first embedded image element of a card
root, with its browser-resolved current source, its direct source
attribute, the raw `src` attribute, and the lazy-loading attributes
`data-src` and `data-lazy-src` (empty string = absent).  The fallback-chain
Image Resolver of spec §4.3 belongs to a revision of the scraper that is
not among the two revisions present under `src/` (those only read the
image's raw `src` attribute, or defer entirely to enrichment). -/
structure ImgEl where
  currentSrc : String
  srcProp : String
  srcAttrRaw : String
  dataSrc : String
  dataLazySrc : String
deriving DecidableEq

/-- Modelled from the spec: what the Image Resolver probes on a card root —
the first embedded image element (if any), the `srcset` attribute of the
first responsive-image source (if any), and the computed `background-image`
style value of the first descendant whose inline style references
`background-image` (if any). -/
structure CardMarkup where
  img : Option ImgEl
  sourceSrcset : Option String
  bgStyle : Option String
deriving DecidableEq

def firstNonEmpty : List String → String
  | [] => ""
  | s :: rest => if s = "" then firstNonEmpty rest else s

/-- Modelled from the spec: step 1 of the chain — the embedded image
element's sources in priority order. -/
def imgChainOf : Option ImgEl → String
  | none => ""
  | some i =>
    firstNonEmpty [i.currentSrc, i.srcProp, i.srcAttrRaw, i.dataSrc, i.dataLazySrc]

/-- Modelled from the spec: the URL token preceding the first descriptor in
the first comma-separated `srcset` entry. -/
def srcsetFirstUrl (srcset : String) : String :=
  String.mk ((((srcset.data.takeWhile (fun c => c != ',')).dropWhile isJsWs)).takeWhile
    (fun c => !isJsWs c))

def srcsetCandOf : Option String → String
  | none => ""
  | some s => srcsetFirstUrl s

/-- Position just after the first occurrence of `url(` in a style value. -/
def afterUrlOpen : List Char → Option (List Char)
  | [] => none
  | c :: rest =>
    if ("url(".data).isPrefixOf (c :: rest) then some ((c :: rest).drop 4)
    else afterUrlOpen rest

/-- Strip one optional matching leading and trailing quote. -/
def stripQuotes (l : List Char) : List Char :=
  let l1 := match l with
    | c :: t => if c == '"' || c == '\'' then t else l
    | [] => l
  match l1.reverse with
  | c :: t => if c == '"' || c == '\'' then t.reverse else l1
  | [] => l1

/-- Modelled from the spec: step 3 of the chain — a CSS `background-image`
URL extracted via a `url(...)` pattern, stripped of optional quotes. -/
def bgCandOf : Option String → String
  | none => ""
  | some s =>
    match afterUrlOpen s.data with
    | none => ""
    | some rest =>
      String.mk (stripQuotes (jsTrimList (rest.takeWhile (fun c => c != ')'))))

/-- Modelled from the spec: the Image Resolver — try the embedded image
chain, then the first `srcset` candidate, then the `background-image`
URL, stopping at the first non-empty result; empty string if all fail. -/
def imageResolver (c : CardMarkup) : String :=
  let fromImg := imgChainOf c.img
  if fromImg ≠ "" then fromImg
  else
    let fromSet := srcsetCandOf c.sourceSrcset
    if fromSet ≠ "" then fromSet
    else bgCandOf c.bgStyle

/- ------------------------------------------------------------------ -/
/- Supporting lemmas on strings                                        -/
/- ------------------------------------------------------------------ -/

theorem string_eq_empty_iff (s : String) : s = "" ↔ s.data = [] := by
  constructor
  · intro h; rw [h]
  · intro h; cases s with
    | mk d => cases h; rfl

theorem strStartsWith_iff (s pre : String) :
    strStartsWith s pre = true ↔ pre.data <+: s.data := by
  simp [strStartsWith, List.isPrefixOf_iff_prefix]

theorem ne_empty_of_startsWith {s pre : String} (h : strStartsWith s pre = true)
    (hpre : pre.data ≠ []) : s ≠ "" := by
  intro hs
  rw [strStartsWith_iff] at h
  rw [string_eq_empty_iff] at hs
  rw [hs] at h
  exact hpre (List.prefix_nil.mp h)

theorem append_ne_empty_left {p h : String} (hp : p ≠ "") : p ++ h ≠ "" := by
  intro he
  rw [string_eq_empty_iff, String.data_append, List.append_eq_nil] at he
  exact hp ((string_eq_empty_iff p).mpr he.1)

theorem startsWith_https_of_protocol_relative {h : String}
    (hh : strStartsWith h "//" = true) :
    strStartsWith ("https:" ++ h) "https://" = true := by
  rw [strStartsWith_iff] at hh ⊢
  obtain ⟨t, ht⟩ := hh
  refine ⟨t, ?_⟩
  rw [String.data_append, ← ht]
  rfl

theorem startsWith_https_of_base_prefixed (h : String) :
    strStartsWith ("https://intermountainhealthcare.org" ++ h) "https://" = true := by
  rw [strStartsWith_iff, String.data_append]
  exact ⟨"intermountainhealthcare.org".data ++ h.data, by rfl⟩

theorem absUrl_of_empty : absUrl "" = "" := rfl

theorem absUrl_of_http {h : String}
    (h1 : strStartsWith h "http://" = true ∨ strStartsWith h "https://" = true) :
    absUrl h = h := by
  have hne : h ≠ "" := by
    rcases h1 with h1 | h1
    · exact ne_empty_of_startsWith h1 (by decide)
    · exact ne_empty_of_startsWith h1 (by decide)
  have hor : (strStartsWith h "http://" || strStartsWith h "https://") = true := by
    rcases h1 with h1 | h1 <;> simp [h1]
  simp [absUrl, hne, hor]

theorem absUrl_of_protocol_relative {h : String}
    (h1 : strStartsWith h "http://" = false) (h2 : strStartsWith h "https://" = false)
    (h3 : strStartsWith h "//" = true) :
    absUrl h = "https:" ++ h := by
  have hne : h ≠ "" := ne_empty_of_startsWith h3 (by decide)
  simp [absUrl, hne, h1, h2, h3]

theorem absUrl_of_root_relative {h : String}
    (h1 : strStartsWith h "http://" = false) (h2 : strStartsWith h "https://" = false)
    (h3 : strStartsWith h "//" = false) (h4 : strStartsWith h "/" = true) :
    absUrl h = "https://intermountainhealthcare.org" ++ h := by
  have hne : h ≠ "" := ne_empty_of_startsWith h4 (by decide)
  simp [absUrl, hne, h1, h2, h3, h4]

theorem absUrl_of_other {h : String} (hne : h ≠ "")
    (h1 : strStartsWith h "http://" = false) (h2 : strStartsWith h "https://" = false)
    (h3 : strStartsWith h "//" = false) (h4 : strStartsWith h "/" = false) :
    absUrl h = h := by
  simp [absUrl, hne, h1, h2, h3, h4]

theorem absUrl_ne_empty {h : String} (hne : h ≠ "") : absUrl h ≠ "" := by
  by_cases c1 : (strStartsWith h "http://" || strStartsWith h "https://") = true
  · unfold absUrl
    rw [if_neg hne, if_pos c1]
    exact hne
  · by_cases c2 : strStartsWith h "//" = true
    · rw [Bool.or_eq_true, not_or, Bool.not_eq_true, Bool.not_eq_true] at c1
      rw [absUrl_of_protocol_relative c1.1 c1.2 c2]
      exact append_ne_empty_left (by decide)
    · by_cases c3 : strStartsWith h "/" = true
      · rw [Bool.or_eq_true, not_or, Bool.not_eq_true, Bool.not_eq_true] at c1
        rw [absUrl_of_root_relative c1.1 c1.2 (Bool.not_eq_true _ |>.mp c2) c3]
        exact append_ne_empty_left (by decide)
      · rw [Bool.or_eq_true, not_or, Bool.not_eq_true, Bool.not_eq_true] at c1
        rw [absUrl_of_other hne c1.1 c1.2 (Bool.not_eq_true _ |>.mp c2)
          (Bool.not_eq_true _ |>.mp c3)]
        exact hne

theorem absUrl_eq_empty_iff (h : String) : absUrl h = "" ↔ h = "" := by
  constructor
  · intro he
    by_contra hne
    exact absUrl_ne_empty hne he
  · intro he; rw [he]; rfl

theorem mem_dropWhile_of_not {a : Char} {p : Char → Bool} :
    ∀ {l : List Char}, a ∈ l → p a = false → a ∈ l.dropWhile p
  | [], h, _ => absurd h (List.not_mem_nil a)
  | b :: t, h, hpa => by
    by_cases hb : p b = true
    · rw [List.dropWhile_cons_of_pos hb]
      rcases List.mem_cons.mp h with rfl | ht
      · rw [hpa] at hb; exact absurd hb (by simp)
      · exact mem_dropWhile_of_not ht hpa
    · rw [List.dropWhile_cons_of_neg hb]
      exact h

theorem head_dropWhile_not {p : Char → Bool} :
    ∀ {l : List Char} {c : Char} {t : List Char}, l.dropWhile p = c :: t → p c = false
  | [], c, t, h => by simp [List.dropWhile] at h
  | b :: r, c, t, h => by
    by_cases hb : p b = true
    · rw [List.dropWhile_cons_of_pos hb] at h
      exact head_dropWhile_not h
    · rw [List.dropWhile_cons_of_neg hb] at h
      cases h
      exact Bool.not_eq_true _ |>.mp hb

theorem jsTrim_nonempty_witness {l : List Char} (h : jsTrimList l ≠ []) :
    ∃ c ∈ jsTrimList l, isJsWs c = false := by
  rw [jsTrimList] at h ⊢
  rcases hx : (l.dropWhile isJsWs).reverse.dropWhile isJsWs with _ | ⟨c, t⟩
  · rw [hx] at h
    exact absurd rfl h
  · exact ⟨c, List.mem_reverse.mpr (List.mem_cons_self c t), head_dropWhile_not hx⟩

theorem mem_collapse_of_not_ws {a : Char} (ha : isJsWs a = false) :
    ∀ (flag : Bool) {l : List Char}, a ∈ l → a ∈ collapseWsGo flag l
  | _, [], h => absurd h (List.not_mem_nil a)
  | flag, b :: t, h => by
    rcases List.mem_cons.mp h with rfl | ht
    · rw [collapseWsGo, if_neg (by rw [ha]; exact Bool.false_ne_true)]
      exact List.mem_cons_self a _
    · rw [collapseWsGo]
      by_cases hb : isJsWs b = true
      · rw [if_pos hb]
        by_cases hf : flag = true
        · rw [if_pos hf]; exact mem_collapse_of_not_ws ha true ht
        · rw [if_neg hf]
          exact List.mem_cons_of_mem _ (mem_collapse_of_not_ws ha true ht)
      · rw [if_neg hb]
        exact List.mem_cons_of_mem _ (mem_collapse_of_not_ws ha false ht)

theorem jsTrim_ne_nil_of_mem {a : Char} {l : List Char} (h : a ∈ l)
    (ha : isJsWs a = false) : jsTrimList l ≠ [] := by
  rw [jsTrimList]
  have h1 : a ∈ l.dropWhile isJsWs := mem_dropWhile_of_not h ha
  have h2 : a ∈ (l.dropWhile isJsWs).reverse.dropWhile isJsWs :=
    mem_dropWhile_of_not (List.mem_reverse.mpr h1) ha
  intro he
  rw [List.reverse_eq_nil_iff] at he
  rw [he] at h2
  exact List.not_mem_nil a h2

/-- Normalizing an already non-empty normalized string keeps it
non-empty (`cleaned` re-applies `cleanText` to titles the in-page loop
already normalized and checked). -/
theorem cleanText_again_ne_empty {s : String} (h : cleanText s ≠ "") :
    cleanText (cleanText s) ≠ "" := by
  have hd : (cleanText s).data ≠ [] := by
    intro he
    exact h ((string_eq_empty_iff _).mpr he)
  obtain ⟨c, hc, hcw⟩ := @jsTrim_nonempty_witness (collapseWsGo false s.data) hd
  have hc2 : c ∈ collapseWsGo false (cleanText s).data :=
    mem_collapse_of_not_ws hcw false hc
  intro he
  rw [string_eq_empty_iff] at he
  exact jsTrim_ne_nil_of_mem hc2 hcw he

/- Dedup and extraction loop lemmas -/

theorem dedupGo_not_mem_seen :
    ∀ (cs : List Candidate) (seen : List String) (c : Candidate),
      c ∈ dedupGo seen cs → ¬ c.href ∈ seen
  | [], _, _, h => absurd h (List.not_mem_nil _)
  | d :: rest, seen, c, h => by
    rw [dedupGo] at h
    by_cases hg : d.href = "" ∨ d.href ∈ seen
    · rw [if_pos hg] at h
      exact dedupGo_not_mem_seen rest seen c h
    · rw [if_neg hg] at h
      rcases List.mem_cons.mp h with rfl | ht
      · exact fun hm => hg (Or.inr hm)
      · intro hm
        exact dedupGo_not_mem_seen rest (d.href :: seen) c ht
          (List.mem_cons_of_mem _ hm)

theorem dedupGo_pairwise :
    ∀ (cs : List Candidate) (seen : List String),
      List.Pairwise (fun a b : Candidate => a.href ≠ b.href) (dedupGo seen cs)
  | [], _ => List.Pairwise.nil
  | d :: rest, seen => by
    rw [dedupGo]
    by_cases hg : d.href = "" ∨ d.href ∈ seen
    · rw [if_pos hg]
      exact dedupGo_pairwise rest seen
    · rw [if_neg hg]
      refine List.Pairwise.cons ?_ (dedupGo_pairwise rest (d.href :: seen))
      intro b hb he
      exact dedupGo_not_mem_seen rest (d.href :: seen) b hb
        (by rw [← he]; exact List.mem_cons_self _ _)

theorem dedupGo_sublist :
    ∀ (cs : List Candidate) (seen : List String), List.Sublist (dedupGo seen cs) cs
  | [], _ => List.Sublist.refl []
  | d :: rest, seen => by
    rw [dedupGo]
    by_cases hg : d.href = "" ∨ d.href ∈ seen
    · rw [if_pos hg]
      exact List.Sublist.cons d (dedupGo_sublist rest seen)
    · rw [if_neg hg]
      exact List.Sublist.cons₂ d (dedupGo_sublist rest (d.href :: seen))

theorem extractGo_eq_take_filter (MAX : Nat) :
    ∀ (cs : List Candidate) (count : Nat),
      extractGo MAX count cs = ((cs.filter qualifies).take (MAX - count)).map mkRaw
  | [], count => by simp [extractGo]
  | c :: rest, count => by
    rw [extractGo]
    by_cases hm : MAX ≤ count
    · rw [if_pos hm, Nat.sub_eq_zero_of_le hm]
      simp
    · rw [if_neg hm]
      have hsub : MAX - count = (MAX - (count + 1)) + 1 := by omega
      by_cases hq : qualifies c = true
      · rw [if_pos hq, List.filter_cons_of_pos hq, hsub, List.take_succ_cons,
          List.map_cons, extractGo_eq_take_filter MAX rest (count + 1)]
      · rw [if_neg hq, List.filter_cons_of_neg (by simpa using hq),
          extractGo_eq_take_filter MAX rest count]

/- Concurrency limiter invariant lemmas -/

theorem LInv_init {α β : Type} (items : List α) (f : α → Nat → β) (limit : Nat) :
    LInv items f limit (initL β items.length limit) := by
  refine ⟨?_, ?_, ?_, ?_, ?_, ?_, ?_, ?_⟩
  · exact List.length_replicate _ _
  · exact List.length_replicate _ _
  · exact List.length_replicate _ _
  · intro i _ hi
    exact ⟨List.getElem?_replicate_of_lt hi, List.getElem?_replicate_of_lt hi⟩
  · intro w i hw
    simp only [initL] at hw
    rw [List.getElem?_replicate] at hw
    split at hw
    · cases hw
    · cases hw
  · intro w1 w2 i h1 _
    simp only [initL] at h1
    rw [List.getElem?_replicate] at h1
    split at h1
    · cases h1
    · cases h1
  · intro i hi _
    simp only [initL] at hi
    exact absurd hi (Nat.not_lt_zero i)
  · intro w hw
    simp only [initL] at hw
    rw [List.getElem?_replicate] at hw
    split at hw
    · cases hw
    · cases hw

theorem length_of_getElem?_some {γ : Type} {l : List γ} {i : Nat} {a : γ}
    (h : l[i]? = some a) : i < l.length := by
  rcases List.getElem?_eq_some.mp h with ⟨hlt, _⟩
  exact hlt

theorem LInv.step {α β : Type} {items : List α} {f : α → Nat → β} {limit : Nat}
    {s : LState β} (h : LInv items f limit s) (w : Nat) :
    LInv items f limit (stepL items f s w) := by
  rcases hw : s.workers[w]? with _ | st
  · simpa [stepL, hw] using h
  · have hwlt : w < s.workers.length := length_of_getElem?_some hw
    cases st with
    | done => simpa [stepL, hw] using h
    | idle =>
      by_cases hlen : items.length ≤ s.next
      · -- claim past the end: the worker returns
        simp only [stepL, hw, if_pos hlen]
        refine ⟨h.resLen, h.wrLen, by simpa using h.wkLen, ?_, ?_, ?_, ?_, ?_⟩
        · intro i h1 h2
          dsimp only at h1
          exact h.blank i (by omega) h2
        · intro w' i hw'
          dsimp only
          by_cases hww : w = w'
          · subst hww
            rw [List.getElem?_set_self hwlt] at hw'
            cases hw'
          · rw [List.getElem?_set_ne hww] at hw'
            obtain ⟨a, b, c, d⟩ := h.workOk w' i hw'
            exact ⟨a, by omega, c, d⟩
        · intro w1 w2 i h1 h2
          by_cases h1w : w = w1
          · subst h1w; rw [List.getElem?_set_self hwlt] at h1; cases h1
          · by_cases h2w : w = w2
            · subst h2w; rw [List.getElem?_set_self hwlt] at h2; cases h2
            · rw [List.getElem?_set_ne h1w] at h1
              rw [List.getElem?_set_ne h2w] at h2
              exact h.uniq w1 w2 i h1 h2
        · intro i hi hil
          dsimp only at hi
          have hi' : i < s.next := by omega
          rcases h.filled i hi' hil with hfl | ⟨w0, hw0⟩
          · exact Or.inl hfl
          · have hww : w ≠ w0 := by
              intro he; rw [← he, hw] at hw0; cases hw0
            exact Or.inr ⟨w0, by rw [List.getElem?_set_ne hww]; exact hw0⟩
        · intro w' _
          dsimp only
          omega
      · -- claim a real slot: the worker suspends on the mapper
        simp only [stepL, hw, if_neg hlen]
        have hnext : s.next < items.length := by omega
        refine ⟨h.resLen, h.wrLen, by simpa using h.wkLen, ?_, ?_, ?_, ?_, ?_⟩
        · intro i h1 h2
          dsimp only at h1
          exact h.blank i (by omega) h2
        · intro w' i hw'
          dsimp only
          by_cases hww : w = w'
          · subst hww
            rw [List.getElem?_set_self hwlt] at hw'
            cases hw'
            obtain ⟨hr, hwr⟩ := h.blank s.next (Nat.le_refl _) hnext
            exact ⟨hnext, by omega, hr, hwr⟩
          · rw [List.getElem?_set_ne hww] at hw'
            obtain ⟨a, b, c, d⟩ := h.workOk w' i hw'
            exact ⟨a, by omega, c, d⟩
        · intro w1 w2 i h1 h2
          by_cases h1w : w = w1
          · subst h1w
            rw [List.getElem?_set_self hwlt] at h1
            cases h1
            by_cases h2w : w = w2
            · exact h2w
            · rw [List.getElem?_set_ne h2w] at h2
              obtain ⟨_, hlt, _, _⟩ := h.workOk w2 _ h2
              omega
          · by_cases h2w : w = w2
            · subst h2w
              rw [List.getElem?_set_self hwlt] at h2
              cases h2
              rw [List.getElem?_set_ne h1w] at h1
              obtain ⟨_, hlt, _, _⟩ := h.workOk w1 _ h1
              omega
            · rw [List.getElem?_set_ne h1w] at h1
              rw [List.getElem?_set_ne h2w] at h2
              exact h.uniq w1 w2 i h1 h2
        · intro i hi hil
          dsimp only at hi
          by_cases hieq : i = s.next
          · subst hieq
            exact Or.inr ⟨w, by rw [List.getElem?_set_self hwlt]⟩
          · have hi' : i < s.next := by omega
            rcases h.filled i hi' hil with hfl | ⟨w0, hw0⟩
            · exact Or.inl hfl
            · have hww : w ≠ w0 := by
                intro he; rw [← he, hw] at hw0; cases hw0
              exact Or.inr ⟨w0, by rw [List.getElem?_set_ne hww]; exact hw0⟩
        · intro w' hw'
          dsimp only
          by_cases hww : w = w'
          · subst hww
            rw [List.getElem?_set_self hwlt] at hw'
            cases hw'
          · rw [List.getElem?_set_ne hww] at hw'
            have := h.doneNext w' hw'
            omega
    | working idx =>
      -- the mapper resolved: write the slot and loop back
      simp only [stepL, hw]
      obtain ⟨hidx, hidxn, hres, hwr⟩ := h.workOk w idx hw
      have hreslt : idx < s.results.length := by rw [h.resLen]; exact hidx
      have hwrlt : idx < s.writes.length := by rw [h.wrLen]; exact hidx
      have hgetD : s.writes.getD idx 0 = 0 := by
        rw [List.getD_eq_getElem?_getD, hwr]
        rfl
      refine ⟨by simpa using h.resLen, by simpa using h.wrLen,
        by simpa using h.wkLen, ?_, ?_, ?_, ?_, ?_⟩
      · intro i h1 h2
        dsimp only at h1
        have hne : idx ≠ i := by omega
        dsimp only
        rw [List.getElem?_set_ne hne, List.getElem?_set_ne hne]
        exact h.blank i h1 h2
      · intro w' i hw'
        by_cases hww : w = w'
        · subst hww
          rw [List.getElem?_set_self hwlt] at hw'
          cases hw'
        · rw [List.getElem?_set_ne hww] at hw'
          obtain ⟨a, b, c, d⟩ := h.workOk w' i hw'
          have hne : idx ≠ i := by
            intro he
            exact hww (h.uniq w w' idx hw (by rw [he]; exact hw'))
          rw [List.getElem?_set_ne hne, List.getElem?_set_ne hne]
          exact ⟨a, b, c, d⟩
      · intro w1 w2 i h1 h2
        by_cases h1w : w = w1
        · subst h1w; rw [List.getElem?_set_self hwlt] at h1; cases h1
        · by_cases h2w : w = w2
          · subst h2w; rw [List.getElem?_set_self hwlt] at h2; cases h2
          · rw [List.getElem?_set_ne h1w] at h1
            rw [List.getElem?_set_ne h2w] at h2
            exact h.uniq w1 w2 i h1 h2
      · intro i hi hil
        dsimp only at hi
        dsimp only
        by_cases hieq : i = idx
        · subst hieq
          refine Or.inl ⟨List.getElem?_set_self hreslt, ?_⟩
          rw [hgetD, List.getElem?_set_self hwrlt]
        · rcases h.filled i hi hil with ⟨hfr, hfw⟩ | ⟨w0, hw0⟩
          · have hne : idx ≠ i := fun he => hieq he.symm
            exact Or.inl ⟨by rw [List.getElem?_set_ne hne]; exact hfr,
              by rw [List.getElem?_set_ne hne]; exact hfw⟩
          · have hww : w ≠ w0 := by
              intro he
              rw [← he, hw] at hw0
              cases hw0
              exact hieq rfl
            exact Or.inr ⟨w0, by rw [List.getElem?_set_ne hww]; exact hw0⟩
      · intro w' hw'
        by_cases hww : w = w'
        · subst hww
          rw [List.getElem?_set_self hwlt] at hw'
          cases hw'
        · rw [List.getElem?_set_ne hww] at hw'
          exact h.doneNext w' hw'

theorem LInv_exec {α β : Type} {items : List α} {f : α → Nat → β} {limit : Nat}
    (ss : List Nat) :
    ∀ (s : LState β), LInv items f limit s → LInv items f limit (execL items f ss s)
  | s, h => by
    cases ss with
    | nil => exact h
    | cons a t =>
      rw [execL, List.foldl_cons]
      exact LInv_exec t (stepL items f s a) (h.step a)

theorem LInv_allDone {α β : Type} {items : List α} {f : α → Nat → β} {limit : Nat}
    {s : LState β} (h : LInv items f limit s) (hl : 1 ≤ limit) (hd : allDone s) :
    ∀ i, i < items.length →
      s.results[i]? = some (expectedAt items f i) ∧ s.writes[i]? = some 1 := by
  intro i hi
  have hpos : 0 < s.workers.length := by
    rw [h.wkLen]
    exact Nat.lt_min.mpr ⟨hl, by omega⟩
  have hst : s.workers[0]? = some s.workers[0] := List.getElem?_eq_getElem hpos
  have hdone0 : s.workers[0] = WStatus.done :=
    hd _ (List.getElem_mem hpos)
  have hlen : items.length < s.next := h.doneNext 0 (by rw [hst, hdone0])
  rcases h.filled i (by omega) hi with hfl | ⟨w0, hw0⟩
  · exact hfl
  · obtain ⟨hwlt, hwe⟩ := List.getElem?_eq_some.mp hw0
    have : s.workers[w0] = WStatus.done := hd _ (List.getElem_mem hwlt)
    rw [this] at hwe
    cases hwe

/- ------------------------------------------------------------------ -/
/- Claim theorems                                                      -/
/- ------------------------------------------------------------------ -/

/-- C5: for every href string, `absUrl` returns an `http://`- or
`https://`-prefixed input unchanged; prefixes a protocol-relative input
(`//...`) with `https:`; prefixes a root-relative input (`/...`) with the
base origin; returns any other non-empty input unchanged; and maps the
empty input to the empty string. -/
theorem absUrl_resolver_spec (h : String) :
    (strStartsWith h "http://" = true ∨ strStartsWith h "https://" = true →
      absUrl h = h)
  ∧ (strStartsWith h "http://" = false → strStartsWith h "https://" = false →
      strStartsWith h "//" = true → absUrl h = "https:" ++ h)
  ∧ (strStartsWith h "http://" = false → strStartsWith h "https://" = false →
      strStartsWith h "//" = false → strStartsWith h "/" = true →
      absUrl h = "https://intermountainhealthcare.org" ++ h)
  ∧ (h ≠ "" → strStartsWith h "http://" = false → strStartsWith h "https://" = false →
      strStartsWith h "//" = false → strStartsWith h "/" = false → absUrl h = h)
  ∧ (h = "" → absUrl h = "") :=
  ⟨absUrl_of_http,
   fun a b c => absUrl_of_protocol_relative a b c,
   fun a b c d => absUrl_of_root_relative a b c d,
   fun hne a b c d => absUrl_of_other hne a b c d,
   fun he => by rw [he]; rfl⟩

/-- Witness for C5: the URL Resolver examples of the specification,
evaluated concretely through `absUrl_resolver_spec`. -/
theorem absUrl_resolver_spec_witness :
    absUrl "/a/b" = "https://intermountainhealthcare.org/a/b"
  ∧ absUrl "//cdn.example.org/x.jpg" = "https://cdn.example.org/x.jpg"
  ∧ absUrl "https://x.com/y" = "https://x.com/y"
  ∧ absUrl "" = "" :=
  ⟨((absUrl_resolver_spec "/a/b").2.2.1 (by decide) (by decide) (by decide)
      (by decide)).trans (by decide),
   ((absUrl_resolver_spec "//cdn.example.org/x.jpg").2.1 (by decide) (by decide)
      (by decide)).trans (by decide),
   (absUrl_resolver_spec "https://x.com/y").1 (Or.inr (by decide)),
   (absUrl_resolver_spec "").2.2.2.2 rfl⟩

/-- C10: `absUrl` is idempotent — every output of the URL Resolver is a
fixed point of the URL Resolver. -/
theorem absUrl_idempotent (h : String) : absUrl (absUrl h) = absUrl h := by
  by_cases h0 : h = ""
  · rw [h0]; rfl
  · by_cases c1 : (strStartsWith h "http://" || strStartsWith h "https://") = true
    · have e : absUrl h = h := absUrl_of_http (Bool.or_eq_true _ _ |>.mp c1)
      rw [e, e]
    · rw [Bool.or_eq_true, not_or, Bool.not_eq_true, Bool.not_eq_true] at c1
      by_cases c2 : strStartsWith h "//" = true
      · rw [absUrl_of_protocol_relative c1.1 c1.2 c2]
        exact absUrl_of_http (Or.inr (startsWith_https_of_protocol_relative c2))
      · by_cases c3 : strStartsWith h "/" = true
        · rw [absUrl_of_root_relative c1.1 c1.2 (Bool.not_eq_true _ |>.mp c2) c3]
          exact absUrl_of_http (Or.inr (startsWith_https_of_base_prefixed h))
        · have e := absUrl_of_other h0 c1.1 c1.2 (Bool.not_eq_true _ |>.mp c2)
            (Bool.not_eq_true _ |>.mp c3)
          rw [e, e]

theorem findFirst_eq {α : Type} (p : α → Bool) (l : List α) :
    l.find? p = (l.filter p).head? := by
  induction l with
  | nil => rfl
  | cons a t ih =>
    by_cases h : p a = true
    · rw [List.find?_cons_of_pos t h, List.filter_cons_of_pos h, List.head?_cons]
    · rw [List.find?_cons_of_neg t h, List.filter_cons_of_neg h, ih]

/-- C6: over a card's non-title text strings in document order, the
classifier picks as `category` the first string of length in `[3, 45]`
(else empty) and as `description` the first string of length at least `60`
(else empty); a string of length 10 is eligible only as category, one of
length 80 only as description, and one of length 50 as neither. -/
theorem textClassifier_spec (bits : List String) :
    selectCategory bits = ((bits.filter categoryBand).head?).getD ""
  ∧ selectDescription bits = ((bits.filter descriptionBand).head?).getD ""
  ∧ (∀ t : String, t.length = 10 → selectCategory [t] = t ∧ selectDescription [t] = "")
  ∧ (∀ t : String, t.length = 80 → selectCategory [t] = "" ∧ selectDescription [t] = t)
  ∧ (∀ t : String, t.length = 50 →
      selectCategory [t] = "" ∧ selectDescription [t] = "") := by
  refine ⟨?_, ?_, ?_, ?_, ?_⟩
  · rw [selectCategory, findFirst_eq]
  · rw [selectDescription, findFirst_eq]
  · intro t ht
    constructor <;>
      simp [selectCategory, selectDescription, List.find?, categoryBand,
        descriptionBand, ht]
  · intro t ht
    constructor <;>
      simp [selectCategory, selectDescription, List.find?, categoryBand,
        descriptionBand, ht]
  · intro t ht
    constructor <;>
      simp [selectCategory, selectDescription, List.find?, categoryBand,
        descriptionBand, ht]

/-- Witness for C6: concrete strings of lengths 10, 80 and 50 evaluated
through `textClassifier_spec`. -/
theorem textClassifier_spec_witness :
    (selectCategory ["abcdefghij"] = "abcdefghij" ∧ selectDescription ["abcdefghij"] = "")
  ∧ (selectCategory [String.mk (List.replicate 80 'x')] = ""
      ∧ selectDescription [String.mk (List.replicate 80 'x')]
          = String.mk (List.replicate 80 'x'))
  ∧ (selectCategory [String.mk (List.replicate 50 'x')] = ""
      ∧ selectDescription [String.mk (List.replicate 50 'x')] = "") :=
  ⟨(textClassifier_spec []).2.2.1 "abcdefghij" (by decide),
   (textClassifier_spec []).2.2.2.1 (String.mk (List.replicate 80 'x')) (by decide),
   (textClassifier_spec []).2.2.2.2 (String.mk (List.replicate 50 'x')) (by decide)⟩

/-- C3 (spec-modelled): the Image Resolver returns the first non-empty
result of the strict priority chain — embedded image sources
(current/direct/raw `src`, then `data-src`, then `data-lazy-src`), then the
first `srcset` candidate, then the `background-image` URL, else empty; in
particular a direct image attribute wins over a `srcset` candidate and a
`srcset` candidate wins over a background-image style. -/
theorem imageResolver_priority (c : CardMarkup) :
    (imgChainOf c.img ≠ "" → imageResolver c = imgChainOf c.img)
  ∧ (imgChainOf c.img = "" → srcsetCandOf c.sourceSrcset ≠ "" →
      imageResolver c = srcsetCandOf c.sourceSrcset)
  ∧ (imgChainOf c.img = "" → srcsetCandOf c.sourceSrcset = "" →
      imageResolver c = bgCandOf c.bgStyle)
  ∧ (∀ i, c.img = some i → i.currentSrc ≠ "" → imageResolver c = i.currentSrc)
  ∧ (∀ i, c.img = some i → i.currentSrc = "" → i.srcProp = "" → i.srcAttrRaw ≠ "" →
      imageResolver c = i.srcAttrRaw)
  ∧ (∀ i, c.img = some i → i.currentSrc = "" → i.srcProp = "" → i.srcAttrRaw = "" →
      i.dataSrc ≠ "" → imageResolver c = i.dataSrc)
  ∧ (∀ i, c.img = some i → i.currentSrc = "" → i.srcProp = "" → i.srcAttrRaw = "" →
      i.dataSrc = "" → i.dataLazySrc ≠ "" → imageResolver c = i.dataLazySrc) := by
  refine ⟨?_, ?_, ?_, ?_, ?_, ?_, ?_⟩
  · intro h; simp [imageResolver, h]
  · intro h1 h2; simp [imageResolver, h1, h2]
  · intro h1 h2; simp [imageResolver, h1, h2]
  · intro i hi h; simp [imageResolver, hi, imgChainOf, firstNonEmpty, h]
  · intro i hi h1 h2 h3
    simp [imageResolver, hi, imgChainOf, firstNonEmpty, h1, h2, h3]
  · intro i hi h1 h2 h3 h4
    simp [imageResolver, hi, imgChainOf, firstNonEmpty, h1, h2, h3, h4]
  · intro i hi h1 h2 h3 h4 h5
    simp [imageResolver, hi, imgChainOf, firstNonEmpty, h1, h2, h3, h4, h5]

/-- Witness for C3: a card carrying a direct `src` attribute, a `srcset`
and a background image resolves to the direct attribute; without the image
element, the `srcset` candidate beats the background image. -/
theorem imageResolver_priority_witness :
    imageResolver
      { img := some { currentSrc := "", srcProp := "", srcAttrRaw := "/img/direct.png",
                      dataSrc := "", dataLazySrc := "" },
        sourceSrcset := some "/img/set-400.png 400w, /img/set-800.png 800w",
        bgStyle := some "url(/img/bg.png)" } = "/img/direct.png"
  ∧ imageResolver
      { img := none,
        sourceSrcset := some "/img/set-400.png 400w, /img/set-800.png 800w",
        bgStyle := some "url(/img/bg.png)" } = "/img/set-400.png" :=
  ⟨(imageResolver_priority
      { img := some { currentSrc := "", srcProp := "", srcAttrRaw := "/img/direct.png",
                      dataSrc := "", dataLazySrc := "" },
        sourceSrcset := some "/img/set-400.png 400w, /img/set-800.png 800w",
        bgStyle := some "url(/img/bg.png)" }).2.2.2.2.1
      { currentSrc := "", srcProp := "", srcAttrRaw := "/img/direct.png",
        dataSrc := "", dataLazySrc := "" } rfl rfl rfl (by decide),
   ((imageResolver_priority
      { img := none,
        sourceSrcset := some "/img/set-400.png 400w, /img/set-800.png 800w",
        bgStyle := some "url(/img/bg.png)" }).2.1 rfl (by decide)).trans (by decide)⟩

/-- C4: `fetchOgImage` never propagates an exception — a network error, a
timeout-triggered abort or a non-success status yields the empty string;
on a successful response it returns the first `og:image` meta content
(either attribute ordering) resolved through `absUrl`, else the first
`twitter:image` meta content resolved through `absUrl`, else the empty
string. -/
theorem fetchOgImage_spec (u : String) (tm : Nat) :
    fetchOgImage u tm FetchOutcome.netError = ""
  ∧ fetchOgImage u tm FetchOutcome.aborted = ""
  ∧ (∀ body, fetchOgImage u tm (FetchOutcome.success false body) = "")
  ∧ (∀ body m1, u ≠ "" → ogImageMatch body = some m1 →
      fetchOgImage u tm (FetchOutcome.success true body) = absUrl m1)
  ∧ (∀ body m1, u ≠ "" → ogImageMatch body = none →
      twitterImageMatch body = some m1 →
      fetchOgImage u tm (FetchOutcome.success true body) = absUrl m1)
  ∧ (∀ body, ogImageMatch body = none → twitterImageMatch body = none →
      fetchOgImage u tm (FetchOutcome.success true body) = "") := by
  refine ⟨?_, ?_, ?_, ?_, ?_, ?_⟩
  · by_cases h : absUrl u = "" <;> simp [fetchOgImage, h]
  · by_cases h : absUrl u = "" <;> simp [fetchOgImage, h]
  · intro body
    by_cases h : absUrl u = "" <;> simp [fetchOgImage, h]
  · intro body m1 hu hog
    have h : absUrl u ≠ "" := absUrl_ne_empty hu
    simp [fetchOgImage, h, hog]
  · intro body m1 hu hog htw
    have h : absUrl u ≠ "" := absUrl_ne_empty hu
    simp [fetchOgImage, h, hog, htw]
  · intro body hog htw
    by_cases h : absUrl u = "" <;> simp [fetchOgImage, h, hog, htw]

/-- Witness for C4: the specification's examples — an `og:image` body, a
`twitter:image`-only body, and an aborted (timed-out) fetch — evaluated
through `fetchOgImage_spec`. -/
theorem fetchOgImage_spec_witness :
    fetchOgImage "https://news.example/a" 20000
      (FetchOutcome.success true
        "<meta property=\"og:image\" content=\"https://x/img.png\">")
      = "https://x/img.png"
  ∧ fetchOgImage "https://news.example/a" 20000
      (FetchOutcome.success true
        "<meta name=\"twitter:image\" content=\"https://x/tw.png\">")
      = "https://x/tw.png"
  ∧ fetchOgImage "https://news.example/a" 20000 FetchOutcome.aborted = "" :=
  ⟨((fetchOgImage_spec "https://news.example/a" 20000).2.2.2.1
      "<meta property=\"og:image\" content=\"https://x/img.png\">"
      "https://x/img.png" (by decide) (by decide)).trans (by decide),
   ((fetchOgImage_spec "https://news.example/a" 20000).2.2.2.2.1
      "<meta name=\"twitter:image\" content=\"https://x/tw.png\">"
      "https://x/tw.png" (by decide) (by decide) (by decide)).trans (by decide),
   (fetchOgImage_spec "https://news.example/a" 20000).2.1⟩

/-- Counterexample for C1 as stated: the code deduplicates by the raw
href, before URL resolution, so the distinct raw hrefs `/a` and
`https://intermountainhealthcare.org/a` both survive and resolve to the
same final `url` — two emitted records share one post-resolution `url`. -/
theorem dedup_postResolution_counterexample :
    ¬ List.Pairwise (fun a b : CardRecord => a.url ≠ b.url)
      (pipelineItems (fun _ => FetchOutcome.netError)
        { headings := ["You might be interested in"],
          candidates :=
            [{ href := "/a", titleText := "Alpha", cardTexts := [] },
             { href := "https://intermountainhealthcare.org/a",
               titleText := "Beta", cardTexts := [] }] }) := by
  decide

/-- C1 amended: within one extraction run no two emitted records share the
same RAW href (the `url` field of the in-page records, which is the value
the dedup set tracks), and every emitted record has a non-empty `title` and
a non-empty `url`; candidates with an empty title or href are dropped
entirely.  Uniqueness of the post-resolution `url` values can fail when two
distinct raw hrefs resolve to the same absolute URL
(`dedup_postResolution_counterexample`). -/
theorem cardExtractor_dedup_nonempty (cs : List Candidate) :
    List.Pairwise (fun a b : RawRecord => a.url ≠ b.url)
      (extractGo MAX_ITEMS 0 (dedupByHref cs))
  ∧ ∀ r ∈ cleanedOf (extractGo MAX_ITEMS 0 (dedupByHref cs)),
      r.title ≠ "" ∧ r.url ≠ "" := by
  constructor
  · rw [extractGo_eq_take_filter]
    rw [List.pairwise_map]
    refine List.Pairwise.sublist ?_ (dedupGo_pairwise cs [])
    exact (List.take_sublist _ _).trans (List.filter_sublist _)
  · intro r hr
    rw [cleanedOf] at hr
    obtain ⟨it, hit, rfl⟩ := List.mem_map.mp hr
    have hit2 := List.mem_of_mem_take hit
    rw [extractGo_eq_take_filter] at hit2
    obtain ⟨c, hc, rfl⟩ := List.mem_map.mp hit2
    have hc2 := List.mem_of_mem_take hc
    have hq : qualifies c = true := List.of_mem_filter hc2
    rw [qualifies, Bool.and_eq_true, decide_eq_true_iff, decide_eq_true_iff] at hq
    constructor
    · exact cleanText_again_ne_empty hq.1
    · exact absUrl_ne_empty hq.2

/-- Witness for C1 (amended): one qualifying candidate produces a record
whose cleaned title and resolved url are non-empty, via
`cardExtractor_dedup_nonempty`. -/
theorem cardExtractor_dedup_nonempty_witness :
    (cleanRecord (mkRaw { href := "/a", titleText := "Alpha", cardTexts := [] })).title
        ≠ ""
  ∧ (cleanRecord (mkRaw { href := "/a", titleText := "Alpha", cardTexts := [] })).url
        ≠ "" :=
  (cardExtractor_dedup_nonempty
      [{ href := "/a", titleText := "Alpha", cardTexts := [] }]).2
    (cleanRecord (mkRaw { href := "/a", titleText := "Alpha", cardTexts := [] }))
    (by decide)

/-- C7: when no heading's normalized text contains the target phrase
(case-insensitive substring match), the Section Locator reports not-found
and the pipeline emits exactly zero items (and, being a total function,
raises nothing). -/
theorem sectionLocator_not_found (env : String → FetchOutcome) (snap : Snapshot)
    (h : ∀ t ∈ snap.headings, headingMatches t = false) :
    findHeading snap.headings = none ∧ pipelineItems env snap = [] := by
  have hf : findHeading snap.headings = none := by
    rw [findHeading, List.find?_eq_none]
    intro t ht
    rw [h t ht]
    exact Bool.false_ne_true
  exact ⟨hf, by simp [pipelineItems, withImagesOf, cleanedOf, baseItemsOf, hf]⟩

/-- Witness for C7: a snapshot whose only heading reads `Locations`. -/
theorem sectionLocator_not_found_witness :
    findHeading (Snapshot.headings { headings := ["Locations"], candidates := [] })
        = none
  ∧ pipelineItems (fun _ => FetchOutcome.netError)
      { headings := ["Locations"], candidates := [] } = [] :=
  sectionLocator_not_found (fun _ => FetchOutcome.netError)
    { headings := ["Locations"], candidates := [] } (by decide)

/-- C8: the final `items` sequence never exceeds `MAX_ITEMS` (8) records,
and it is exactly the per-candidate mapping of the first at-most-8
qualifying deduplicated candidates, in their order; the dedup pass is a
sublist (first-encountered order) of the candidate list. -/
theorem pipeline_cap_and_order (env : String → FetchOutcome) (snap : Snapshot) :
    (pipelineItems env snap).length ≤ MAX_ITEMS
  ∧ pipelineItems env snap
      = (match findHeading snap.headings with
         | none => []
         | some _ =>
           (((dedupByHref snap.candidates).filter qualifies).take MAX_ITEMS).map
             (fun c => enrichMapper env (cleanRecord (mkRaw c))))
  ∧ List.Sublist (dedupByHref snap.candidates) snap.candidates := by
  have key : pipelineItems env snap
      = (match findHeading snap.headings with
         | none => []
         | some _ =>
           (((dedupByHref snap.candidates).filter qualifies).take MAX_ITEMS).map
             (fun c => enrichMapper env (cleanRecord (mkRaw c)))) := by
    rw [pipelineItems, baseItemsOf]
    cases hf : findHeading snap.headings with
    | none => rfl
    | some t =>
      rw [extractGo_eq_take_filter, Nat.sub_zero, withImagesOf, cleanedOf]
      have hlen : (((((dedupByHref snap.candidates).filter qualifies).take
          MAX_ITEMS)).map mkRaw).length ≤ MAX_ITEMS := by
        rw [List.length_map, List.length_take]
        exact Nat.min_le_left _ _
      rw [List.take_of_length_le hlen, List.map_map, List.map_map]
      rfl
  refine ⟨?_, key, dedupGo_sublist snap.candidates []⟩
  rw [key]
  cases hf : findHeading snap.headings with
  | none => simp
  | some t =>
    simp only [List.length_map, List.length_take]
    exact Nat.min_le_left _ _

/-- C9: enrichment only touches `imageUrl` — titles, urls, categories and
descriptions are unchanged pointwise and the record count (hence order) is
preserved; moreover every record entering enrichment has an empty
`imageUrl` (the `cleaned` stage initializes it to `""`), so the secondary
fetch is only ever invoked for records whose `imageUrl` is still empty. -/
theorem enrichment_frame (env : String → FetchOutcome) (base : List RawRecord) :
    (withImagesOf env (cleanedOf base)).map CardRecord.title
        = (cleanedOf base).map CardRecord.title
  ∧ (withImagesOf env (cleanedOf base)).map CardRecord.url
        = (cleanedOf base).map CardRecord.url
  ∧ (withImagesOf env (cleanedOf base)).map CardRecord.category
        = (cleanedOf base).map CardRecord.category
  ∧ (withImagesOf env (cleanedOf base)).map CardRecord.description
        = (cleanedOf base).map CardRecord.description
  ∧ (withImagesOf env (cleanedOf base)).length = (cleanedOf base).length
  ∧ (∀ r ∈ cleanedOf base, r.imageUrl = "") := by
  refine ⟨?_, ?_, ?_, ?_, ?_, ?_⟩
  · rw [withImagesOf, List.map_map]; rfl
  · rw [withImagesOf, List.map_map]; rfl
  · rw [withImagesOf, List.map_map]; rfl
  · rw [withImagesOf, List.map_map]; rfl
  · rw [withImagesOf, List.length_map]
  · intro r hr
    obtain ⟨it, _, rfl⟩ := List.mem_map.mp hr
    rfl

/-- C2: for every input list, every `limit >= 1` and every mapper, a
completed run of `mapWithConcurrency` (any schedule of worker resumptions
after which `Promise.all` has resolved) leaves a results array of exactly
the input length in which slot `i` holds the mapper's result for input
`i` — index alignment regardless of completion order — with exactly
`min limit items.length` workers, each slot written exactly once and no
slot skipped. -/
theorem mapWithConcurrency_correct {α β : Type} (items : List α) (f : α → Nat → β)
    (limit : Nat) (hl : 1 ≤ limit) (ss : List Nat)
    (hdone : allDone (execL items f ss (initL β items.length limit))) :
    (execL items f ss (initL β items.length limit)).results.length = items.length
  ∧ (execL items f ss (initL β items.length limit)).workers.length
      = min limit items.length
  ∧ (∀ (i : Nat) (hi : i < items.length),
      (execL items f ss (initL β items.length limit)).results[i]?
        = some (some (f items[i] i)))
  ∧ (∀ i : Nat, i < items.length →
      (execL items f ss (initL β items.length limit)).writes[i]? = some 1) := by
  have hinv : LInv items f limit (execL items f ss (initL β items.length limit)) :=
    LInv_exec ss _ (LInv_init items f limit)
  refine ⟨hinv.resLen, hinv.wkLen, ?_, ?_⟩
  · intro i hi
    have := (LInv_allDone hinv hl hdone i hi).1
    rw [this, expectedAt, List.getElem?_eq_getElem hi]
    rfl
  · intro i hi
    exact (LInv_allDone hinv hl hdone i hi).2

/-- Witness for C2: five items, limit 3, and one concrete completing
schedule — every slot is populated with the mapper's value for its own
index and written exactly once, via `mapWithConcurrency_correct`. -/
theorem mapWithConcurrency_correct_witness :
    allDone (execL [10, 20, 30, 40, 50] (fun a i => a + i)
      (List.replicate 11 0 ++ [1, 2]) (initL Nat 5 3))
  ∧ (execL [10, 20, 30, 40, 50] (fun a i => a + i)
      (List.replicate 11 0 ++ [1, 2]) (initL Nat 5 3)).results[2]?
      = some (some 32)
  ∧ (execL [10, 20, 30, 40, 50] (fun a i => a + i)
      (List.replicate 11 0 ++ [1, 2]) (initL Nat 5 3)).writes[4]? = some 1 :=
  ⟨by decide,
   (mapWithConcurrency_correct [10, 20, 30, 40, 50] (fun a i => a + i) 3
      (by decide) (List.replicate 11 0 ++ [1, 2]) (by decide)).2.2.1 2 (by decide),
   (mapWithConcurrency_correct [10, 20, 30, 40, 50] (fun a i => a + i) 3
      (by decide) (List.replicate 11 0 ++ [1, 2]) (by decide)).2.2.2 4 (by decide)⟩

/-- Every completed run of the concurrent limiter over the cleaned records
computes exactly the sequential `withImagesOf` denotation used by the
pipeline theorems. -/
theorem limiter_results_eq_map (env : String → FetchOutcome)
    (cleaned : List CardRecord) (ss : List Nat)
    (hdone : allDone (execL cleaned (fun it _ => enrichMapper env it) ss
      (initL CardRecord cleaned.length 3))) :
    (execL cleaned (fun it _ => enrichMapper env it) ss
      (initL CardRecord cleaned.length 3)).results
      = (withImagesOf env cleaned).map some := by
  have hinv := @LInv_exec CardRecord CardRecord cleaned
    (fun it _ => enrichMapper env it) 3 ss _
    (LInv_init cleaned (fun it _ => enrichMapper env it) 3)
  apply List.ext_getElem?
  intro i
  by_cases hi : i < cleaned.length
  · rw [(LInv_allDone hinv (by omega) hdone i hi).1]
    rw [List.getElem?_map, withImagesOf, List.getElem?_map]
    rw [expectedAt, List.getElem?_eq_getElem hi]
    rfl
  · have h1 : (execL cleaned (fun it _ => enrichMapper env it) ss
        (initL CardRecord cleaned.length 3)).results.length ≤ i := by
      rw [hinv.resLen]; omega
    rw [List.getElem?_eq_none h1, List.getElem?_eq_none]
    rw [List.length_map, withImagesOf, List.length_map]
    omega

/-- Witness for C9: the single cleaned record of a one-item batch enters
enrichment with an empty `imageUrl`, via `enrichment_frame`. -/
theorem enrichment_frame_witness :
    (cleanRecord { title := "T", url := "/u", category := "", description := "" }).imageUrl
      = "" :=
  (enrichment_frame (fun _ => FetchOutcome.netError)
      [{ title := "T", url := "/u", category := "", description := "" }]).2.2.2.2.2
    (cleanRecord { title := "T", url := "/u", category := "", description := "" })
    (by decide)

end Scrape
